import Mathlib

/-!
Shallow embedding of the `amplifier-core` coordination kernel
(crates/amplifier-core/src): the JSON data model, the hook-dispatch
pipeline (`hooks.rs`), the cancellation token (`cancellation.rs`), the
coordinator cleanup stack (`coordinator.rs`) and the session lifecycle
(`session.rs`), together with theorems settling the specification's
claims about them.

Conventions of the embedding:
* `serde_json::Value` is modelled by `JValue`; JSON objects are ordered
  association lists (serde_json's map preserves/uses keyed insertion:
  `insert` replaces the value of an existing key).
* Async handler invocation `handler.handle(event, data).await`, which
  returns `Result<HookResult, HookError>`, is modelled as a pure function
  `JValue → Option HookResult`; `none` models the `Err` case (the error
  value itself is discarded by the dispatch loop).
* `emit` and `emit_and_collect` are instrumented: besides the value the
  Rust function returns, they return the invocation log — the payload
  delivered to, and the outcome produced by, each handler actually
  invoked, in invocation order.  The log is observable behaviour (the
  handlers are external) and is what the claims about "handler h was /
  was not invoked with payload d" quantify over.
* `chrono::Utc::now().to_rfc3339()` is a dependency outside this
  repository; it is modelled from the spec by `UtcTime.toRfc3339`
  (seconds precision, `+00:00` offset), and `emit` takes the clock
  reading as an explicit `now : UtcTime` argument.
-/

-- ===========================================================================
-- JSON values (model of serde_json::Value restricted to what the kernel uses)
-- ===========================================================================

/-- Model of `serde_json::Value`.  Objects are ordered association lists. -/
inductive JValue where
  | null
  | bool (b : Bool)
  | num (n : Int)
  | str (s : String)
  | obj (fields : List (String × JValue))
  deriving Repr

/-- Insert-or-replace into a JSON object's field list, keeping the position
of an existing key (serde_json `Map::insert` semantics). -/
def objInsert (m : List (String × JValue)) (k : String) (v : JValue) :
    List (String × JValue) :=
  match m with
  | [] => [(k, v)]
  | (k0, v0) :: rest =>
      if k0 = k then (k0, v) :: rest else (k0, v0) :: objInsert rest k v

/-- Look a key up in a JSON object's field list. -/
def objGet (m : List (String × JValue)) (k : String) : Option JValue :=
  match m with
  | [] => none
  | (k0, v0) :: rest => if k0 = k then some v0 else objGet rest k

/-- Whether a JSON value is an object containing the key `k`. -/
def hasKey (v : JValue) (k : String) : Bool :=
  match v with
  | .obj m => (objGet m k).isSome
  | _ => false

-- ===========================================================================
-- Data model (models.rs): HookAction, ContextInjectionRole, HookResult
-- ===========================================================================

/-- `HookAction` from `models.rs`. -/
inductive HookAction where
  | Continue
  | Deny
  | Modify
  | InjectContext
  | AskUser
  deriving DecidableEq, Repr

/-- `ContextInjectionRole` from `models.rs`. -/
inductive ContextInjectionRole where
  | System
  | User
  | Assistant
  deriving DecidableEq, Repr

/-- `HookResult` from `models.rs`.  The fields the dispatch pipeline reads or
writes are embedded; purely approval/display fields that no verified
operation touches (`approval_options`, `approval_timeout`,
`approval_default`, `user_message*`, `append_to_last_tool_result`,
`extensions`) are omitted from the model. -/
structure HookResult where
  action : HookAction := .Continue
  data : Option (List (String × JValue)) := none
  reason : Option String := none
  context_injection : Option String := none
  context_injection_role : ContextInjectionRole := .System
  ephemeral : Bool := false
  approval_prompt : Option String := none
  suppress_output : Bool := false
  deriving Repr

-- ===========================================================================
-- RFC 3339 clock (modelled from the spec: chrono is an external dependency)
-- ===========================================================================

/-- Modelled from the spec: the UTC instant read from the system clock by
`chrono::Utc::now()` in `HookRegistry::emit` (chrono is a dependency, not
code of this repository).  Seconds precision. -/
structure UtcTime where
  year : Nat
  month : Nat
  day : Nat
  hour : Nat
  minute : Nat
  second : Nat
  deriving Repr

/-- The character for decimal digit `n % 10`. -/
def digitChar (n : Nat) : Char :=
  match n % 10 with
  | 0 => '0' | 1 => '1' | 2 => '2' | 3 => '3' | 4 => '4'
  | 5 => '5' | 6 => '6' | 7 => '7' | 8 => '8' | _ => '9'

/-- Modelled from the spec: `to_rfc3339` rendering of a UTC instant,
`YYYY-MM-DDTHH:MM:SS+00:00` (fields reduced mod their digit width). -/
def UtcTime.toRfc3339 (t : UtcTime) : String :=
  ⟨[digitChar (t.year / 1000), digitChar (t.year / 100),
    digitChar (t.year / 10), digitChar t.year, '-',
    digitChar (t.month / 10), digitChar t.month, '-',
    digitChar (t.day / 10), digitChar t.day, 'T',
    digitChar (t.hour / 10), digitChar t.hour, ':',
    digitChar (t.minute / 10), digitChar t.minute, ':',
    digitChar (t.second / 10), digitChar t.second, '+',
    '0', '0', ':', '0', '0']⟩

/-- Recogniser for the RFC 3339 instant shape `YYYY-MM-DDTHH:MM:SS` followed
by a `+00:00` or `Z` offset (the shape `to_rfc3339` produces for a UTC time
at seconds precision): a string of this shape parses as a valid RFC 3339
instant. -/
def isRfc3339Chars : List Char → Bool
  | y1 :: y2 :: y3 :: y4 :: c1 :: m1 :: m2 :: c2 :: d1 :: d2 :: ct ::
    h1 :: h2 :: c3 :: n1 :: n2 :: c4 :: s1 :: s2 :: rest =>
      y1.isDigit && y2.isDigit && y3.isDigit && y4.isDigit &&
      c1 == '-' && m1.isDigit && m2.isDigit && c2 == '-' &&
      d1.isDigit && d2.isDigit && ct == 'T' &&
      h1.isDigit && h2.isDigit && c3 == ':' &&
      n1.isDigit && n2.isDigit && c4 == ':' &&
      s1.isDigit && s2.isDigit &&
      (rest == ['+', '0', '0', ':', '0', '0'] || rest == ['Z'])
  | _ => false

/-- A string parses as a valid RFC 3339 UTC instant (seconds precision). -/
def isRfc3339 (s : String) : Bool :=
  isRfc3339Chars s.data

-- ===========================================================================
-- Hook registry helpers (hooks.rs lines 359-413)
-- ===========================================================================

/-- `merge_json` (hooks.rs): `base` overridden by `overlay`; non-object
values make `overlay` win. -/
def merge_json (base overlay : JValue) : JValue :=
  match base, overlay with
  | .obj base_map, .obj overlay_map =>
      .obj (overlay_map.foldl (fun merged kv => objInsert merged kv.1 kv.2) base_map)
  | _, _ => overlay

/-- `value_to_map` (hooks.rs): a JSON value as a string-keyed map; non-object
values become the empty map. -/
def value_to_map (value : JValue) : List (String × JValue) :=
  match value with
  | .obj m => m
  | _ => []

/-- `merge_inject_context_results` (hooks.rs): combine collected
`inject_context` results, joining injections with `"\n\n"` and taking
role / ephemeral / suppress_output from the first result. -/
def merge_inject_context_results (results : List HookResult) : HookResult :=
  match results with
  | [] => {}
  | [r] => r
  | first :: _ =>
      let combined_content :=
        String.intercalate "\n\n" (results.filterMap (·.context_injection))
      { action := .InjectContext,
        context_injection := some combined_content,
        context_injection_role := first.context_injection_role,
        ephemeral := first.ephemeral,
        suppress_output := first.suppress_output }

-- ===========================================================================
-- Hook registry (hooks.rs lines 42-141)
-- ===========================================================================

/-- A hook handler: `handler.handle(event, data).await` modelled as a pure
function of the delivered payload; `none` models `Err(_)`. -/
def Handler : Type := JValue → Option HookResult

/-- `HandlerEntry` (hooks.rs). -/
structure HandlerEntry where
  handler : Handler
  priority : Int
  name : String
  id : Nat

/-- `HookRegistry` state: handlers keyed by event name (sorted by priority
within each event) and the default fields for `emit`. -/
structure HookRegistry where
  handlers : List (String × List HandlerEntry)
  defaults : Option JValue

/-- Look up the handler list registered for an event. -/
def lookupEvent (hs : List (String × List HandlerEntry)) (event : String) :
    Option (List HandlerEntry) :=
  match hs with
  | [] => none
  | (e, entries) :: rest => if e = event then some entries else lookupEvent rest event

/-- Insert an entry into a priority-sorted list, after all entries of
priority ≤ its own (the effect of `push` + stable `sort_by_key` on an
already-sorted list, hooks.rs lines 121-127). -/
def insertByPriority (e : HandlerEntry) : List HandlerEntry → List HandlerEntry
  | [] => [e]
  | x :: xs => if x.priority ≤ e.priority then x :: insertByPriority e xs
               else e :: x :: xs

-- ===========================================================================
-- emit (hooks.rs lines 160-264), instrumented with the invocation log
-- ===========================================================================

/-- The mutable state of `emit`'s dispatch loop: `current_data`,
`special_result`, `inject_context_results`. -/
structure EmitState where
  current : JValue
  special : Option HookResult
  injects : List HookResult
  deriving Repr

/-- One step of the loop body for a non-deny result (hooks.rs lines
225-240): modify chains data, inject_context is collected, the first
ask_user is preserved. -/
def emitStep (st : EmitState) (result : HookResult) : EmitState :=
  let st :=
    if result.action = .Modify then
      match result.data with
      | some modified => { st with current := .obj modified }
      | none => st
    else st
  let st :=
    if result.action = .InjectContext ∧ result.context_injection.isSome then
      { st with injects := st.injects ++ [result] }
    else st
  if result.action = .AskUser ∧ st.special.isNone then
    { st with special := some result }
  else st

/-- The dispatch loop of `emit` (hooks.rs lines 211-241).  Returns either
the early deny return (`Sum.inl`) or the final state (`Sum.inr`), paired
with the invocation log: the payload delivered to, and the outcome of,
each handler invoked, in order. -/
def emitLoop : List Handler → EmitState →
    (HookResult ⊕ EmitState) × List (JValue × Option HookResult)
  | [], st => (.inr st, [])
  | h :: hs, st =>
      match h st.current with
      | none =>
          -- Error in handler: log and continue.
          let rl := emitLoop hs st
          (rl.1, (st.current, none) :: rl.2)
      | some result =>
          if result.action = .Deny then
            -- Deny short-circuits immediately.
            (.inl result, [(st.current, some result)])
          else
            let rl := emitLoop hs (emitStep st result)
            (rl.1, (st.current, some result) :: rl.2)

/-- The post-loop merge and return (hooks.rs lines 243-263). -/
def emitFinish (st : EmitState) : HookResult :=
  let special :=
    if st.injects.isEmpty then st.special
    else match st.special with
      | none => some (merge_inject_context_results st.injects)
      | some r => some r
  match special with
  | some result => result
  | none => { action := .Continue, data := some (value_to_map st.current) }

/-- The data the dispatch loop of `emit` starts from (hooks.rs lines
187-205): defaults merged under the payload (payload wins), then the
`timestamp` field stamped with the clock reading whenever the merged
payload is a JSON object. -/
def initialData (reg : HookRegistry) (data : JValue) (now : UtcTime) : JValue :=
  let current_data :=
    match reg.defaults with
    | some defaults_val => merge_json defaults_val data
    | none => data
  match current_data with
  | .obj map => .obj (objInsert map "timestamp" (.str now.toRfc3339))
  | other => other

/-- `HookRegistry::emit` (hooks.rs lines 160-264), with the clock reading
passed explicitly and the invocation log returned alongside the result.
With no handlers registered for the event the payload is returned as-is
(no defaults merge, no timestamp).  Otherwise the loop runs from
`initialData`. -/
def emit (reg : HookRegistry) (event : String) (data : JValue) (now : UtcTime) :
    HookResult × List (JValue × Option HookResult) :=
  match lookupEvent reg.handlers event with
  | none => ({ action := .Continue, data := some (value_to_map data) }, [])
  | some entries =>
      if entries.isEmpty then
        ({ action := .Continue, data := some (value_to_map data) }, [])
      else
        let rl :=
          emitLoop (entries.map (·.handler))
            { current := initialData reg data now, special := none, injects := [] }
        match rl.1 with
        | .inl deny_result => (deny_result, rl.2)
        | .inr st => (emitFinish st, rl.2)

-- ===========================================================================
-- emit_and_collect (hooks.rs lines 274-318), instrumented likewise
-- ===========================================================================

/-- `HookRegistry::emit_and_collect` (hooks.rs lines 274-318): every handler
is invoked with the same caller payload (no defaults, no timestamp, no
chaining); the `data` of each successful result is collected.  A handler
timeout behaves like a handler error and is modelled by the same `none`
outcome.  The invocation log is returned alongside. -/
def emit_and_collect (reg : HookRegistry) (event : String) (data : JValue) :
    List (List (String × JValue)) × List (JValue × Option HookResult) :=
  match lookupEvent reg.handlers event with
  | none => ([], [])
  | some entries =>
      if entries.isEmpty then ([], [])
      else
        let step := fun (h : Handler) =>
          match h data with
          | none => (none, (data, (none : Option HookResult)))
          | some result => (result.data, (data, some result))
        let outs := (entries.map (·.handler)).map step
        (outs.filterMap (·.1), outs.map (·.2))

-- ===========================================================================
-- Cancellation token (cancellation.rs)
-- ===========================================================================

/-- `CancellationState` (cancellation.rs). -/
inductive CancellationState where
  | None
  | Graceful
  | Immediate
  deriving DecidableEq, Repr

/-- Rank of a cancellation state under the order None < Graceful < Immediate. -/
def stateRank : CancellationState → Nat
  | .None => 0
  | .Graceful => 1
  | .Immediate => 2

/-- `is_immediate` (cancellation.rs line 139). -/
def is_immediate (s : CancellationState) : Bool :=
  s = CancellationState.Immediate

/-- `is_cancelled` (cancellation.rs line 129). -/
def is_cancelled (s : CancellationState) : Bool :=
  s ≠ CancellationState.None

/-- The state-mutating operations of `CancellationToken`, as seen by a
single token (tool tracking does not touch `state`; the requests arrive
either directly or propagated from a parent). -/
inductive TokenOp where
  | requestGraceful
  | requestImmediate
  | reset
  deriving DecidableEq, Repr

/-- Effect of one operation on a token's state (cancellation.rs lines
146-190): `request_graceful` acts only from `None`; `request_immediate`
acts from any state; `reset` sets the state to `None` unconditionally. -/
def stepState (s : CancellationState) : TokenOp → CancellationState
  | .requestGraceful => if s = .None then .Graceful else s
  | .requestImmediate => .Immediate
  | .reset => .None

/-- A token's state after a sequence of operations. -/
def runOps (s : CancellationState) (ops : List TokenOp) : CancellationState :=
  ops.foldl stepState s

/-- `CancellationToken::register_child` (cancellation.rs lines 232-249):
the state the child holds when `register_child` returns, given the parent
state read under the lock.  `Graceful` parents call the child's
`request_graceful`, `Immediate` parents call `request_immediate`, `None`
parents leave the child untouched. -/
def register_child_childState (parent child : CancellationState) :
    CancellationState :=
  match parent with
  | .Graceful => stepState child .requestGraceful
  | .Immediate => stepState child .requestImmediate
  | .None => child

-- ===========================================================================
-- Coordinator cleanup stack (coordinator.rs lines 285-311)
-- ===========================================================================

/-- A registered cleanup callable, abstracted: `id` identifies the
registration, `fails` tells whether executing it errors or panics (the
callable's body is external code). -/
structure CleanupCall where
  id : Nat
  fails : Bool
  deriving DecidableEq, Repr

/-- `Coordinator::register_cleanup` (coordinator.rs lines 288-290): push
onto the cleanup stack. -/
def register_cleanup (fns : List CleanupCall) (f : CleanupCall) :
    List CleanupCall :=
  fns ++ [f]

/-- `Coordinator::cleanup` (coordinator.rs lines 296-311): drain the stack,
then invoke every function in reverse order; a failure (`spawn` join
error, covering panics) is logged and the loop continues.  Returns the
invocation log — each callable invoked, in order, with whether it
failed — and the drained (empty) stack. -/
def coordinator_cleanup (fns : List CleanupCall) :
    List (CleanupCall × Bool) × List CleanupCall :=
  let functions := fns
  (functions.reverse.foldl (fun acc f => acc ++ [(f, f.fails)]) [], [])

-- ===========================================================================
-- Session (session.rs)
-- ===========================================================================

/-- `SessionState` (models.rs). -/
inductive SessionState where
  | Running
  | Completed
  | Failed
  | Cancelled
  deriving DecidableEq, Repr

/-- `SessionError` (errors.rs), the variants session.rs constructs. -/
inductive SessionError where
  | NotInitialized
  | ConfigMissing (field : String)
  | AlreadyCompleted
  | Other (message : String)
  deriving DecidableEq, Repr

/-- `AmplifierError`, restricted to the variants `Session::execute`
produces or forwards; orchestrator errors are opaque to the session. -/
inductive AmplifierError where
  | Session (e : SessionError)
  | Orchestrator (message : String)
  deriving DecidableEq, Repr

/-- `SessionConfig` (session.rs lines 36-40). -/
structure SessionConfig where
  config : List (String × JValue)

/-- `SessionConfig::from_value` (session.rs lines 46-86): requires the
value to be a JSON object with `session.orchestrator` and
`session.context` present (presence is checked with `is_some()`). -/
def SessionConfig.from_value (value : JValue) :
    Except SessionError SessionConfig :=
  match value with
  | .obj obj =>
      let «session» :=
        match objGet obj "session" with
        | some (.obj s) => some s
        | _ => none
      let has_orchestrator :=
        («session».bind (fun s => objGet s "orchestrator")).isSome
      if ¬has_orchestrator then
        .error (.ConfigMissing "session.orchestrator")
      else
        let has_context :=
          («session».bind (fun s => objGet s "context")).isSome
        if ¬has_context then
          .error (.ConfigMissing "session.context")
        else
          .ok ⟨obj⟩
  | _ => .error (.ConfigMissing "config must be a JSON object")

/-- The mounted-orchestrator model: what `orchestrator.execute(...)`
returns for this session's call (the orchestrator is external code). -/
def OrchRun : Type := Except AmplifierError String

/-- The coordinator state the session lifecycle reads (coordinator.rs):
module mount points, the cancellation state, and the cleanup stack.
Providers and tools are identified by name; their behaviour is external. -/
structure Coordinator where
  orchestrator : Option OrchRun
  context : Option Unit
  providers : List String
  tools : List String
  cancellation : CancellationState
  cleanup_functions : List CleanupCall

/-- `Session` (session.rs lines 128-135). -/
structure Session where
  session_id : String
  parent_id : Option String
  coordinator : Coordinator
  initialized : Bool
  status : SessionState
  is_resumed : Bool

/-- `Session::is_initialized` (session.rs line 206). -/
def Session.is_initialized (s : Session) : Bool := s.initialized

/-- `Session::set_initialized` (session.rs lines 225-227). -/
def Session.set_initialized (s : Session) : Session :=
  { s with initialized := true }

/-- `Session::clear_initialized` (session.rs lines 232-234). -/
def Session.clear_initialized (s : Session) : Session :=
  { s with initialized := false }

/-- `Session::execute` (session.rs lines 249-329).  Returns the result,
the updated session, whether the orchestrator was invoked, and the names
of the lifecycle events emitted through the hook registry. -/
def Session.execute (s : Session) : (Except AmplifierError String) × Session × Bool × List String :=
  if ¬s.initialized then
    (.error (.Session .NotInitialized), s, false, [])
  else
    let event := if s.is_resumed then "session:resume" else "session:start"
    match s.coordinator.orchestrator with
    | none =>
        (.error (.Session (.Other "No orchestrator mounted")), s, false, [event])
    | some orch =>
        match s.coordinator.context with
        | none =>
            (.error (.Session (.Other "No context manager mounted")), s, false, [event])
        | some _ =>
            if s.coordinator.providers.isEmpty then
              (.error (.Session (.Other "No providers mounted")), s, false, [event])
            else
              let s := { s with status := .Running }
              match orch with
              | .ok result =>
                  let s :=
                    if is_cancelled s.coordinator.cancellation then
                      { s with status := .Cancelled }
                    else
                      { s with status := .Completed }
                  (.ok result, s, true, [event])
              | .error e =>
                  let s :=
                    if is_cancelled s.coordinator.cancellation then
                      { s with status := .Cancelled }
                    else
                      { s with status := .Failed }
                  (.error e, s, true, [event])

/-- `Session::cleanup` (session.rs lines 335-350): emits `session:end` and
runs the coordinator's cleanup functions (draining the stack).  It takes
`&self` and never touches the `initialized` flag or the status. -/
def Session.cleanup (s : Session) :
    Session × List String × List (CleanupCall × Bool) :=
  let (log, drained) := coordinator_cleanup s.coordinator.cleanup_functions
  ({ s with coordinator := { s.coordinator with cleanup_functions := drained } },
   ["session:end"], log)

/-- The session-lifecycle operations that can touch the `initialized`
flag or run the lifecycle (the public mutating surface of `Session`). -/
inductive SessionOp where
  | setInitialized
  | clearInitialized
  | executeOp
  | cleanupOp
  deriving DecidableEq, Repr

/-- Apply one lifecycle operation to a session. -/
def applySessionOp (s : Session) : SessionOp → Session
  | .setInitialized => s.set_initialized
  | .clearInitialized => s.clear_initialized
  | .executeOp => (s.execute).2.1
  | .cleanupOp => (s.cleanup).1

/-- Apply a sequence of lifecycle operations. -/
def applySessionOps (s : Session) (ops : List SessionOp) : Session :=
  ops.foldl applySessionOp s

-- ===========================================================================
-- Observed actions of an emission (analysis vocabulary for the claims)
-- ===========================================================================

/-- Whether a handler outcome is a deny result. -/
def deniesOutcome (o : Option HookResult) : Bool :=
  match o with
  | some r => r.action = .Deny
  | none => false

/-- The action an invoked handler's outcome contributes to the final
return: `ask_user` as such; `inject_context` only when it carries an
injection; everything else — `continue`, `modify` (whose effect is on the
data, not the returned action), an injection-less `inject_context`, and a
handler error — contributes `continue`. -/
def observedAction (o : Option HookResult) : HookAction :=
  match o with
  | none => .Continue
  | some r =>
      if r.action = .AskUser then .AskUser
      else if r.action = .InjectContext ∧ r.context_injection.isSome then
        .InjectContext
      else .Continue

/-- Rank of an action under the precedence order
`continue < modify < inject_context < ask_user < deny`. -/
def actionRank : HookAction → Nat
  | .Continue => 0
  | .Modify => 1
  | .InjectContext => 2
  | .AskUser => 3
  | .Deny => 4

/-- Maximum of two actions under `actionRank`. -/
def actionMax (a b : HookAction) : HookAction :=
  if actionRank a < actionRank b then b else a

/-- Whether some outcome in the list contributes `ask_user`. -/
def hasAsk (outs : List (Option HookResult)) : Bool :=
  outs.any (fun o => observedAction o = .AskUser)

/-- Whether some outcome in the list contributes `inject_context`. -/
def hasInj (outs : List (Option HookResult)) : Bool :=
  outs.any (fun o => observedAction o = .InjectContext)

/-- The maximum observed action of a list of handler outcomes. -/
def maxObserved (outs : List (Option HookResult)) : HookAction :=
  outs.foldr (fun o acc => actionMax (observedAction o) acc) .Continue

-- ===========================================================================
-- Path-presence vocabulary for SessionConfig validation
-- ===========================================================================

/-- Whether a JSON value is an object. -/
def isObj (v : JValue) : Bool :=
  match v with
  | .obj _ => true
  | _ => false

/-- Whether the path `session.<key>` is present in a config value: the
value is an object whose `session` field is an object containing `key`. -/
def pathPresent (v : JValue) (key : String) : Bool :=
  match v with
  | .obj m =>
      match objGet m "session" with
      | some (.obj s) => (objGet s key).isSome
      | _ => false
  | _ => false

-- ===========================================================================
-- Concrete instances used for counterexamples and witnesses
-- ===========================================================================

/-- A fixed clock reading. -/
def t0 : UtcTime := ⟨2026, 10, 12, 0, 0, 0⟩

/-- A plain continue result. -/
def contR : HookResult := {}

/-- A modify result carrying replacement data without a timestamp key. -/
def modifyR : HookResult := { action := .Modify, data := some [("x", .str "1")] }

/-- A deny result. -/
def denyR : HookResult := { action := .Deny, reason := some "blocked" }

/-- A handler that always continues. -/
def hContinue : Handler := fun _ => some contR

/-- A handler that always modifies. -/
def hModify : Handler := fun _ => some modifyR

/-- A handler that always denies. -/
def hDeny : Handler := fun _ => some denyR

/-- Registry with a single modify handler on event `"e"`. -/
def regModify : HookRegistry :=
  ⟨[("e", [⟨hModify, 0, "modifier", 0⟩])], none⟩

/-- Registry with a modify handler then a continue handler on `"e"`. -/
def regModifyThenCont : HookRegistry :=
  ⟨[("e", [⟨hModify, 0, "modifier", 0⟩, ⟨hContinue, 10, "capture", 1⟩])], none⟩

/-- Registry with continue, deny, continue handlers on `"tool:pre"`. -/
def regDeny : HookRegistry :=
  ⟨[("tool:pre",
     [⟨hContinue, 0, "counter", 0⟩, ⟨hDeny, 5, "denier", 1⟩,
      ⟨hContinue, 10, "after-deny", 2⟩])], none⟩

/-- Registry with a single continue handler on `"e"`. -/
def regCapture : HookRegistry :=
  ⟨[("e", [⟨hContinue, 0, "capture", 0⟩])], none⟩

/-- Registry with no handlers and a default field `a = 1`. -/
def regDefaults : HookRegistry :=
  ⟨[], some (.obj [("a", .num 1)])⟩

/-- A payload carrying a caller-supplied `timestamp`. -/
def callerStampedPayload : List (String × JValue) :=
  [("timestamp", .str "user-provided")]

/-- The payload the first handler of `regCapture` receives for that payload. -/
def firstDelivered : JValue :=
  initialData regCapture (.obj callerStampedPayload) t0

/-- A coordinator with nothing mounted. -/
def coordBare : Coordinator := ⟨none, none, [], [], .None, []⟩

/-- An initialized session with nothing mounted on its coordinator. -/
def sessionBare : Session :=
  { session_id := "s-1", parent_id := none, coordinator := coordBare,
    initialized := true, status := .Running, is_resumed := false }

/-- A config whose `session.orchestrator` and `session.context` are empty
strings. -/
def cfgEmptyStrings : JValue :=
  .obj [("session", .obj [("orchestrator", .str ""), ("context", .str "")])]

/-- A config with `session.orchestrator` present but `session.context`
absent. -/
def cfgNoContext : JValue :=
  .obj [("session", .obj [("orchestrator", .str "loop-basic")])]

-- ===========================================================================
-- Helper lemmas
-- ===========================================================================

theorem digitChar_isDigit (n : Nat) : (digitChar n).isDigit = true := by
  unfold digitChar
  have h : n % 10 < 10 := Nat.mod_lt _ (by decide)
  interval_cases h : n % 10 <;> rfl

theorem isRfc3339_toRfc3339 (t : UtcTime) : isRfc3339 t.toRfc3339 = true := by
  simp [UtcTime.toRfc3339, isRfc3339, isRfc3339Chars, digitChar_isDigit]

theorem objGet_objInsert_self (m : List (String × JValue)) (k : String)
    (v : JValue) : objGet (objInsert m k v) k = some v := by
  induction m with
  | nil => simp [objInsert, objGet]
  | cons kv rest ih =>
      obtain ⟨k0, v0⟩ := kv
      by_cases hk : k0 = k <;> simp [objInsert, objGet, hk, ih]

theorem merge_json_obj_overlay (d : JValue) (m : List (String × JValue)) :
    ∃ m', merge_json d (.obj m) = .obj m' := by
  cases d <;> simp [merge_json]

theorem initialData_obj (reg : HookRegistry) (m : List (String × JValue))
    (now : UtcTime) :
    ∃ m', initialData reg (.obj m) now = .obj (objInsert m' "timestamp" (.str now.toRfc3339)) := by
  unfold initialData
  cases hd : reg.defaults with
  | none => exact ⟨m, rfl⟩
  | some d =>
      obtain ⟨m', hm'⟩ := merge_json_obj_overlay d m
      exact ⟨m', by simp [hm']⟩

-- ===========================================================================
-- C5: cancellation Immediate state
-- ===========================================================================

/-- C5 (counterexample): the claim that a token never leaves `Immediate`
fails on `reset`, which returns any state, `Immediate` included, to
`None` — after `[request_immediate, reset]`, `is_immediate` is false. -/
theorem reset_leaves_immediate :
    is_immediate (runOps CancellationState.None [TokenOp.requestImmediate]) = true ∧
    is_immediate (runOps CancellationState.None
      [TokenOp.requestImmediate, TokenOp.reset]) = false := by
  decide

/-- C5 (amended): for every sequence of operations that does not contain
`reset`, a token in state `Immediate` stays in `Immediate`, so
`is_immediate` keeps returning true. -/
theorem immediate_absorbing_without_reset (ops : List TokenOp)
    (h : TokenOp.reset ∉ ops) :
    is_immediate (runOps CancellationState.Immediate ops) = true := by
  induction ops with
  | nil => rfl
  | cons op rest ih =>
      have hop : op ≠ TokenOp.reset := by
        intro he
        exact h (he ▸ List.mem_cons_self op rest)
      have hrest : TokenOp.reset ∉ rest := fun he => h (List.mem_cons_of_mem op he)
      cases op with
      | requestGraceful => simpa [runOps, stepState] using ih hrest
      | requestImmediate => simpa [runOps, stepState] using ih hrest
      | reset => exact absurd rfl hop

/-- Witness for `immediate_absorbing_without_reset`. -/
theorem immediate_absorbing_without_reset_witness :
    is_immediate (runOps CancellationState.Immediate
      [TokenOp.requestGraceful, TokenOp.requestImmediate]) = true :=
  immediate_absorbing_without_reset _ (by decide)

-- ===========================================================================
-- C6: register_child and the state order
-- ===========================================================================

/-- C6 (counterexample): registering an `Immediate` child under a `None`
parent leaves the child `Immediate` and the parent `None`, so
`p.state ≥ c.state` fails after `register_child`. -/
theorem register_child_parent_below_child :
    register_child_childState CancellationState.None CancellationState.Immediate
      = CancellationState.Immediate ∧
    ¬ stateRank CancellationState.None ≥
      stateRank (register_child_childState CancellationState.None
        CancellationState.Immediate) := by
  decide

/-- C6 (amended): after `register_child` returns, the child's state is at
least the parent's state (and never below its own previous state) under
the order None < Graceful < Immediate; in particular a child registered
under a parent in state `s ≠ None` has been advanced to at least `s`. -/
theorem register_child_child_at_least_parent (p c : CancellationState) :
    stateRank p ≤ stateRank (register_child_childState p c) ∧
    stateRank c ≤ stateRank (register_child_childState p c) := by
  cases p <;> cases c <;> decide

-- ===========================================================================
-- C9: coordinator cleanup ordering and isolation
-- ===========================================================================

theorem cleanup_foldl_append (l : List CleanupCall)
    (acc : List (CleanupCall × Bool)) :
    l.foldl (fun acc f => acc ++ [(f, f.fails)]) acc
      = acc ++ l.map (fun f => (f, f.fails)) := by
  induction l generalizing acc with
  | nil => simp
  | cons f rest ih => simp [ih]

/-- C9: `Coordinator::cleanup` invokes every registered callable exactly
once, in the exact reverse of registration order, and a failing callable
(error or panic, both surfacing as a join error of the spawned task) does
not remove any other callable from the invocation sequence — the invoked
sequence is `fns.reverse` whatever the callables' outcomes are. -/
theorem cleanup_reverse_order_isolated (fns : List CleanupCall) :
    ((coordinator_cleanup fns).1.map (·.1)) = fns.reverse ∧
    (∀ f, ((coordinator_cleanup fns).1.map (·.1)).count f = fns.count f) ∧
    (coordinator_cleanup fns).2 = [] := by
  have h1 : ((coordinator_cleanup fns).1.map (·.1)) = fns.reverse := by
    show ((List.foldl (fun acc f => acc ++ [(f, f.fails)]) [] fns.reverse, ([] : List CleanupCall)).1.map (·.1)) = fns.reverse
    rw [cleanup_foldl_append]
    simp only [List.nil_append, List.map_map]
    exact List.map_id fns.reverse
  refine ⟨h1, ?_, rfl⟩
  intro f
  rw [h1, List.count_reverse]

-- ===========================================================================
-- C4: the initialized flag across the lifecycle
-- ===========================================================================

theorem execute_preserves_initialized (s : Session) :
    (Session.execute s).2.1.initialized = s.initialized := by
  unfold Session.execute
  repeat' split
  all_goals dsimp only
  all_goals first
    | rfl
    | (split <;> rfl)

theorem cleanup_preserves_initialized (s : Session) :
    (Session.cleanup s).1.initialized = s.initialized := rfl

theorem applySessionOp_initialized (s : Session) (op : SessionOp)
    (hop : op ≠ .clearInitialized) (hs : s.initialized = true) :
    (applySessionOp s op).initialized = true := by
  cases op with
  | setInitialized => rfl
  | clearInitialized => exact absurd rfl hop
  | executeOp => rw [applySessionOp, execute_preserves_initialized]; exact hs
  | cleanupOp => rw [applySessionOp, cleanup_preserves_initialized]; exact hs

/-- C4 (counterexample): `Session::cleanup` takes `&self` and never
touches the `initialized` flag — on an initialized session, after
`cleanup` returns, `is_initialized()` is still true, not false as the
claim states. -/
theorem session_cleanup_keeps_initialized :
    sessionBare.is_initialized = true ∧
    (Session.cleanup sessionBare).1.is_initialized = true :=
  ⟨rfl, rfl⟩

/-- C4 (amended): the `initialized` flag is monotone once true as long as
`clear_initialized` is not called — `set_initialized`, `execute` and
`cleanup` all leave a true flag true — and `Session::cleanup` itself
leaves the flag exactly as it was (it is the bindings layer that calls
`clear_initialized` after its cleanup sequence). -/
theorem initialized_monotone_without_clear (s : Session) (ops : List SessionOp)
    (h : SessionOp.clearInitialized ∉ ops) (hs : s.is_initialized = true) :
    (applySessionOps s ops).is_initialized = true ∧
    (Session.cleanup s).1.is_initialized = s.is_initialized := by
  refine ⟨?_, rfl⟩
  induction ops generalizing s with
  | nil => exact hs
  | cons op rest ih =>
      have hop : op ≠ SessionOp.clearInitialized := by
        intro he
        exact h (he ▸ List.mem_cons_self op rest)
      have hrest : SessionOp.clearInitialized ∉ rest :=
        fun he => h (List.mem_cons_of_mem op he)
      exact ih (applySessionOp s op) hrest (applySessionOp_initialized s op hop hs)

/-- Witness for `initialized_monotone_without_clear`. -/
theorem initialized_monotone_without_clear_witness :
    (applySessionOps sessionBare
      [SessionOp.setInitialized, SessionOp.executeOp, SessionOp.cleanupOp]).is_initialized = true ∧
    (Session.cleanup sessionBare).1.is_initialized = sessionBare.is_initialized :=
  initialized_monotone_without_clear sessionBare _ (by decide) rfl

-- ===========================================================================
-- C10: execute guard errors
-- ===========================================================================

/-- Whether an execute result is a session error of the `Other` kind (the
dedicated "No ... mounted" session errors). -/
def isSessionOtherError (r : Except AmplifierError String) : Bool :=
  match r with
  | .error (.Session (.Other _)) => true
  | _ => false

/-- C10: on an initialized session, when no orchestrator is mounted, no
context manager is mounted, or the providers map is empty, `execute`
returns a dedicated session error, leaves the session (its status
included) unchanged, and never invokes the orchestrator. -/
theorem execute_guards (s : Session) (hinit : s.initialized = true)
    (h : s.coordinator.orchestrator = none ∨ s.coordinator.context = none ∨
        s.coordinator.providers = []) :
    isSessionOtherError (Session.execute s).1 = true ∧
    (Session.execute s).2.1 = s ∧
    (Session.execute s).2.2.1 = false := by
  rcases horch : s.coordinator.orchestrator with _ | orch
  · refine ⟨?_, ?_, ?_⟩ <;>
      simp [Session.execute, hinit, horch, isSessionOtherError]
  · rcases hctx : s.coordinator.context with _ | ctx
    · refine ⟨?_, ?_, ?_⟩ <;>
        simp [Session.execute, hinit, horch, hctx, isSessionOtherError]
    · have hp : s.coordinator.providers = [] := by
        rcases h with h | h | h
        · rw [h] at horch; exact absurd horch (by simp)
        · rw [h] at hctx; exact absurd hctx (by simp)
        · exact h
      refine ⟨?_, ?_, ?_⟩ <;>
        simp [Session.execute, hinit, horch, hctx, hp, isSessionOtherError]

/-- Witness for `execute_guards`. -/
theorem execute_guards_witness :
    isSessionOtherError (Session.execute sessionBare).1 = true ∧
    (Session.execute sessionBare).2.1 = sessionBare ∧
    (Session.execute sessionBare).2.2.1 = false :=
  execute_guards sessionBare rfl (Or.inl rfl)

-- ===========================================================================
-- C8: SessionConfig construction validation
-- ===========================================================================

/-- C8 (counterexample): construction succeeds on a config whose
`session.orchestrator` and `session.context` are both empty strings —
only presence is checked, emptiness (and type) is not. -/
theorem from_value_accepts_empty_strings :
    SessionConfig.from_value cfgEmptyStrings
      = .ok ⟨[("session", .obj [("orchestrator", .str ""), ("context", .str "")])]⟩ ∧
    objGet (value_to_map cfgEmptyStrings) "session"
      = some (.obj [("orchestrator", .str ""), ("context", .str "")]) :=
  ⟨rfl, rfl⟩

/-- C8 (amended): construction checks only *presence* of the paths
`session.orchestrator` and `session.context` (any value, the empty string
included, passes): a non-object config fails with a config-missing error;
an object config with `session.orchestrator` absent fails with
`ConfigMissing "session.orchestrator"`; one with it present but
`session.context` absent fails with `ConfigMissing "session.context"`;
with both paths present construction succeeds with the object's fields. -/
theorem from_value_presence_only (v : JValue) :
    (isObj v = false →
      SessionConfig.from_value v
        = .error (.ConfigMissing "config must be a JSON object")) ∧
    (isObj v = true → pathPresent v "orchestrator" = false →
      SessionConfig.from_value v
        = .error (.ConfigMissing "session.orchestrator")) ∧
    (pathPresent v "orchestrator" = true → pathPresent v "context" = false →
      SessionConfig.from_value v
        = .error (.ConfigMissing "session.context")) ∧
    (pathPresent v "orchestrator" = true → pathPresent v "context" = true →
      SessionConfig.from_value v = .ok ⟨value_to_map v⟩) := by
  cases v with
  | obj m =>
      refine ⟨fun hfalse => by simp [isObj] at hfalse, ?_, ?_, ?_⟩
      · intro _ h2
        rcases hs : objGet m "session" with _ | sv
        · simp [SessionConfig.from_value, hs]
        · cases sv with
          | obj s =>
              simp only [pathPresent, hs] at h2
              simp [SessionConfig.from_value, hs, h2]
          | null => simp [SessionConfig.from_value, hs]
          | bool b => simp [SessionConfig.from_value, hs]
          | num n => simp [SessionConfig.from_value, hs]
          | str t => simp [SessionConfig.from_value, hs]
      · intro h1 h2
        rcases hs : objGet m "session" with _ | sv
        · simp [pathPresent, hs] at h1
        · cases sv with
          | obj s =>
              simp only [pathPresent, hs] at h1 h2
              simp [SessionConfig.from_value, hs, h1, h2]
          | null => simp [pathPresent, hs] at h1
          | bool b => simp [pathPresent, hs] at h1
          | num n => simp [pathPresent, hs] at h1
          | str t => simp [pathPresent, hs] at h1
      · intro h1 h2
        rcases hs : objGet m "session" with _ | sv
        · simp [pathPresent, hs] at h1
        · cases sv with
          | obj s =>
              simp only [pathPresent, hs] at h1 h2
              simp [SessionConfig.from_value, value_to_map, hs, h1, h2]
          | null => simp [pathPresent, hs] at h1
          | bool b => simp [pathPresent, hs] at h1
          | num n => simp [pathPresent, hs] at h1
          | str t => simp [pathPresent, hs] at h1
  | null =>
      exact ⟨fun _ => rfl, fun htrue => by simp [isObj] at htrue,
        fun h1 => by simp [pathPresent] at h1,
        fun h1 => by simp [pathPresent] at h1⟩
  | bool b =>
      exact ⟨fun _ => rfl, fun htrue => by simp [isObj] at htrue,
        fun h1 => by simp [pathPresent] at h1,
        fun h1 => by simp [pathPresent] at h1⟩
  | num n =>
      exact ⟨fun _ => rfl, fun htrue => by simp [isObj] at htrue,
        fun h1 => by simp [pathPresent] at h1,
        fun h1 => by simp [pathPresent] at h1⟩
  | str t =>
      exact ⟨fun _ => rfl, fun htrue => by simp [isObj] at htrue,
        fun h1 => by simp [pathPresent] at h1,
        fun h1 => by simp [pathPresent] at h1⟩

/-- Witness for `from_value_presence_only`. -/
theorem from_value_presence_only_witness :
    SessionConfig.from_value cfgNoContext
      = .error (.ConfigMissing "session.context") :=
  (from_value_presence_only cfgNoContext).2.2.1 rfl rfl

-- ===========================================================================
-- C7: emit with zero handlers
-- ===========================================================================

/-- C7 (counterexample): with zero handlers and default fields set, `emit`
returns the payload alone — the early return happens before the defaults
merge, so the returned data is not `defaults ⊕ payload`. -/
theorem emit_no_handlers_skips_defaults :
    (emit regDefaults "e" (.obj []) t0).1.data = some [] ∧
    value_to_map (merge_json (.obj [("a", .num 1)]) (.obj [])) = [("a", .num 1)] ∧
    some ([] : List (String × JValue)) ≠ some [("a", JValue.num 1)] := by
  refine ⟨rfl, rfl, ?_⟩
  simp

/-- C7 (amended): `emit` with zero handlers registered for the event (no
entry, or an empty entry list) returns `{action: continue, data: payload}`
without merging the default fields and without invoking any handler. -/
theorem emit_no_handlers (reg : HookRegistry) (event : String) (data : JValue)
    (now : UtcTime)
    (h : lookupEvent reg.handlers event = none ∨
        lookupEvent reg.handlers event = some []) :
    emit reg event data now
      = ({ action := .Continue, data := some (value_to_map data) }, []) := by
  unfold emit
  rcases h with h | h <;> (rw [h]; try rfl)

/-- Witness for `emit_no_handlers`. -/
theorem emit_no_handlers_witness :
    emit regDefaults "e" (.obj [("b", JValue.num 2)]) t0
      = ({ action := .Continue,
           data := some (value_to_map (.obj [("b", JValue.num 2)])) }, []) :=
  emit_no_handlers regDefaults "e" (.obj [("b", JValue.num 2)]) t0 (Or.inl rfl)

-- ===========================================================================
-- Dispatch-loop lemmas
-- ===========================================================================

theorem emitLoop_inr_length (hs : List Handler) (st st' : EmitState)
    (log : List (JValue × Option HookResult))
    (h : emitLoop hs st = (.inr st', log)) : log.length = hs.length := by
  induction hs generalizing st log with
  | nil =>
      simp only [emitLoop] at h
      injection h with h1 h2
      simp [← h2]
  | cons hd rest ih =>
      revert h
      simp only [emitLoop]
      cases hr : hd st.current with
      | none =>
          intro h
          injection h with h1 h2
          have hre : emitLoop rest st = (.inr st', (emitLoop rest st).2) := by
            rw [← h1]
          rw [← h2]
          simp [ih _ _ hre]
      | some result =>
          by_cases hden : result.action = .Deny
          · simp only [hden, if_pos rfl]
            intro h
            injection h with h1 h2
            exact absurd h1 (by simp)
          · simp only [if_neg hden]
            intro h
            injection h with h1 h2
            have hre : emitLoop rest (emitStep st result)
                = (.inr st', (emitLoop rest (emitStep st result)).2) := by
              rw [← h1]
            rw [← h2]
            simp [ih _ _ hre]

theorem emitLoop_append_inr (pre rest : List Handler) (st st1 : EmitState)
    (log1 : List (JValue × Option HookResult))
    (hpre : emitLoop pre st = (.inr st1, log1)) :
    emitLoop (pre ++ rest) st
      = ((emitLoop rest st1).1, log1 ++ (emitLoop rest st1).2) := by
  induction pre generalizing st log1 with
  | nil =>
      simp only [emitLoop] at hpre
      injection hpre with h1 h2
      injection h1 with h1
      subst h1
      simp [← h2]
  | cons hd pre' ih =>
      revert hpre
      simp only [List.cons_append, emitLoop]
      have happ : pre'.append rest = pre' ++ rest := rfl
      cases hr : hd st.current with
      | none =>
          intro hpre
          injection hpre with h1 h2
          have hre : emitLoop pre' st = (.inr st1, (emitLoop pre' st).2) := by
            rw [← h1]
          dsimp only
          rw [happ, ih _ _ hre, ← h2]
          simp
      | some result =>
          by_cases hden : result.action = .Deny
          · simp only [hden, if_pos rfl]
            intro hpre
            injection hpre with h1 h2
            exact absurd h1 (by simp)
          · simp only [if_neg hden]
            intro hpre
            injection hpre with h1 h2
            have hre : emitLoop pre' (emitStep st result)
                = (.inr st1, (emitLoop pre' (emitStep st result)).2) := by
              rw [← h1]
            rw [happ, ih _ _ hre, ← h2]
            simp

-- ===========================================================================
-- C2: deny short-circuits
-- ===========================================================================

/-- C2: if the handlers before `hd` in the snapshot order complete the
loop without a deny (reaching state `st1` with invocation log `log1`) and
`hd` returns a result with action deny, then `emit` returns exactly that
result, and the invocation log is `log1` plus the deny invocation — no
handler of later position is invoked (by `emitLoop_inr_length`,
`log1.length = pre.length`, so exactly `pre.length + 1` handlers ran). -/
theorem emit_deny_short_circuits (reg : HookRegistry) (event : String)
    (data : JValue) (now : UtcTime) (entries : List HandlerEntry)
    (pre post : List Handler) (hd : Handler) (st1 : EmitState)
    (log1 : List (JValue × Option HookResult)) (r : HookResult)
    (hlook : lookupEvent reg.handlers event = some entries)
    (hsplit : entries.map (·.handler) = pre ++ hd :: post)
    (hpre : emitLoop pre
        { current := initialData reg data now, special := none, injects := [] }
      = (.inr st1, log1))
    (hres : hd st1.current = some r)
    (hdeny : r.action = .Deny) :
    emit reg event data now = (r, log1 ++ [(st1.current, some r)]) ∧
    (emit reg event data now).2.length = pre.length + 1 := by
  have hne : entries.isEmpty = false := by
    cases entries with
    | nil => simp at hsplit
    | cons e es => rfl
  have hloop : emitLoop (entries.map (·.handler))
      { current := initialData reg data now, special := none, injects := [] }
      = (.inl r, log1 ++ [(st1.current, some r)]) := by
    rw [hsplit, emitLoop_append_inr _ _ _ _ _ hpre]
    simp [emitLoop, hres, hdeny]
  have hmain : emit reg event data now = (r, log1 ++ [(st1.current, some r)]) := by
    unfold emit
    rw [hlook]
    simp only [hne, Bool.false_eq_true, if_false, hloop]
  refine ⟨hmain, ?_⟩
  rw [hmain]
  simp [emitLoop_inr_length _ _ _ _ hpre]

/-- Witness for `emit_deny_short_circuits`. -/
theorem emit_deny_short_circuits_witness :
    emit regDeny "tool:pre" (.obj []) t0
      = (denyR,
         [(initialData regDeny (.obj []) t0, some contR),
          (initialData regDeny (.obj []) t0, some denyR)]) ∧
    (emit regDeny "tool:pre" (.obj []) t0).2.length = 1 + 1 :=
  emit_deny_short_circuits regDeny "tool:pre" (.obj []) t0
    _ [hContinue] [hContinue] hDeny
    { current := initialData regDeny (.obj []) t0, special := none, injects := [] }
    [(initialData regDeny (.obj []) t0, some contR)] denyR
    rfl rfl rfl rfl rfl

-- ===========================================================================
-- C3: timestamp stamping
-- ===========================================================================

theorem emitLoop_log_head (h : Handler) (hs : List Handler) (st : EmitState) :
    (emitLoop (h :: hs) st).2.head? = some (st.current, h st.current) := by
  simp only [emitLoop]
  cases hr : h st.current with
  | none => simp
  | some result => by_cases hden : result.action = .Deny <;> simp [hden]

theorem emit_log (reg : HookRegistry) (event : String) (data : JValue)
    (now : UtcTime) (entries : List HandlerEntry)
    (hlook : lookupEvent reg.handlers event = some entries)
    (hne : entries.isEmpty = false) :
    (emit reg event data now).2
      = (emitLoop (entries.map (·.handler))
          { current := initialData reg data now, special := none,
            injects := [] }).2 := by
  unfold emit
  rw [hlook]
  simp only [hne, Bool.false_eq_true, if_false]
  cases hres : (emitLoop (entries.map (·.handler))
      { current := initialData reg data now, special := none,
        injects := [] }).1 <;>
    simp [hres]

/-- C3 (counterexample): a modify handler's replacement data is forwarded
verbatim to the next handler — here the second handler receives
`{"x": "1"}` with no `timestamp` key at all, so not every payload
delivered during an `emit` with registered handlers carries a timestamp. -/
theorem emit_modify_can_drop_timestamp :
    ((emit regModifyThenCont "e" (.obj []) t0).2.map (·.1))[1]?
      = some (.obj [("x", .str "1")]) ∧
    hasKey (.obj [("x", JValue.str "1")]) "timestamp" = false :=
  ⟨rfl, rfl⟩

/-- C3 (amended): for an object payload, the payload delivered to the
*first* handler invoked by `emit` carries the key `timestamp`, bound to
the clock reading rendered in RFC 3339 (overwriting any caller-supplied
value under that key, since the infrastructure inserts it last), and that
value parses as a valid RFC 3339 instant; later handlers see it unless a
modify handler's replacement data drops it.  `emit_and_collect` delivers
the caller's payload unchanged to every handler — it never stamps a
`timestamp`. -/
theorem emit_stamps_timestamp_first_handler (reg : HookRegistry)
    (event : String) (m : List (String × JValue)) (now : UtcTime)
    (entries : List HandlerEntry)
    (hlook : lookupEvent reg.handlers event = some entries)
    (hne : entries ≠ [])
    (reg2 : HookRegistry) (ev2 : String) (d2 : JValue) :
    (∀ p o, ((emit reg event (.obj m) now).2).head? = some (p, o) →
       objGet (value_to_map p) "timestamp" = some (.str now.toRfc3339) ∧
       isRfc3339 now.toRfc3339 = true) ∧
    (∀ pr ∈ (emit_and_collect reg2 ev2 d2).2, pr.1 = d2) := by
  constructor
  · intro p o hp
    cases entries with
    | nil => exact absurd rfl hne
    | cons e es =>
        rw [emit_log reg event (.obj m) now (e :: es) hlook rfl] at hp
        rw [List.map_cons, emitLoop_log_head] at hp
        injection hp with hp
        injection hp with hp1 hp2
        obtain ⟨m', hm'⟩ := initialData_obj reg m now
        rw [← hp1, hm']
        exact ⟨objGet_objInsert_self m' "timestamp" _, isRfc3339_toRfc3339 now⟩
  · intro pr hpr
    unfold emit_and_collect at hpr
    cases hlk : lookupEvent reg2.handlers ev2 with
    | none => rw [hlk] at hpr; simp at hpr
    | some entries2 =>
        rw [hlk] at hpr
        by_cases hne2 : entries2.isEmpty
        · simp [hne2] at hpr
        · simp only [hne2, Bool.false_eq_true, if_false] at hpr
          simp only [List.map_map, List.mem_map] at hpr
          obtain ⟨h, _, hh⟩ := hpr
          rw [← hh]
          simp only [Function.comp]
          cases hcall : h.handler d2 <;> simp [hcall]

/-- Witness for `emit_stamps_timestamp_first_handler`. -/
theorem emit_stamps_timestamp_first_handler_witness :
    objGet (value_to_map firstDelivered) "timestamp"
      = some (.str t0.toRfc3339) ∧
    isRfc3339 t0.toRfc3339 = true :=
  (emit_stamps_timestamp_first_handler regCapture "e" callerStampedPayload t0
    _ rfl (List.cons_ne_nil _ _) regCapture "e" (.obj [])).1
    firstDelivered (some contR) rfl

-- ===========================================================================
-- C1: the returned action as the maximum observed action
-- ===========================================================================

theorem emitStep_special (st : EmitState) (result : HookResult) :
    (emitStep st result).special
      = if result.action = .AskUser ∧ st.special.isNone then some result
        else st.special := by
  cases ha : result.action with
  | Modify => cases hd : result.data <;> simp [emitStep, ha, hd]
  | InjectContext =>
      by_cases hci : result.context_injection.isSome <;> simp [emitStep, ha, hci]
  | AskUser => cases hsp : st.special <;> simp [emitStep, ha, hsp]
  | Continue => simp [emitStep, ha]
  | Deny => simp [emitStep, ha]

theorem emitStep_injects (st : EmitState) (result : HookResult) :
    (emitStep st result).injects
      = if result.action = .InjectContext ∧ result.context_injection.isSome
        then st.injects ++ [result] else st.injects := by
  cases ha : result.action with
  | Modify => cases hd : result.data <;> simp [emitStep, ha, hd]
  | InjectContext =>
      by_cases hci : result.context_injection.isSome <;>
        cases hsp : st.special <;> simp [emitStep, ha, hci, hsp]
  | AskUser => cases hsp : st.special <;> simp [emitStep, ha, hsp]
  | Continue => simp [emitStep, ha]
  | Deny => simp [emitStep, ha]

theorem emitStep_special_inv (st : EmitState) (result : HookResult)
    (hsp : ∀ r, st.special = some r → r.action = .AskUser) :
    ∀ r, (emitStep st result).special = some r → r.action = .AskUser := by
  intro r h
  rw [emitStep_special] at h
  by_cases hc : result.action = .AskUser ∧ st.special.isNone
  · rw [if_pos hc] at h
    injection h with h
    subst h
    exact hc.1
  · rw [if_neg hc] at h
    exact hsp r h

theorem emitStep_injects_inv (st : EmitState) (result : HookResult)
    (hin : ∀ r ∈ st.injects, r.action = .InjectContext) :
    ∀ r ∈ (emitStep st result).injects, r.action = .InjectContext := by
  intro r h
  rw [emitStep_injects] at h
  by_cases hc : result.action = .InjectContext ∧ result.context_injection.isSome
  · rw [if_pos hc] at h
    rcases List.mem_append.1 h with h | h
    · exact hin r h
    · rw [List.mem_singleton.1 h]
      exact hc.1
  · rw [if_neg hc] at h
    exact hin r h

theorem emitStep_special_isSome (st : EmitState) (result : HookResult) :
    (emitStep st result).special.isSome
      = (st.special.isSome || decide (result.action = .AskUser)) := by
  rw [emitStep_special]
  cases ha : result.action <;> cases hsp : st.special <;> simp [ha, hsp]

theorem emitStep_injects_isEmpty (st : EmitState) (result : HookResult) :
    (emitStep st result).injects.isEmpty
      = (st.injects.isEmpty &&
         !(decide (result.action = .InjectContext) &&
           result.context_injection.isSome)) := by
  rw [emitStep_injects]
  by_cases h1 : result.action = .InjectContext
  · cases hci : result.context_injection.isSome <;> simp [h1, hci]
  · simp [h1]

theorem observedAction_ask (r : HookResult) :
    (observedAction (some r) = HookAction.AskUser) ↔
      (r.action = HookAction.AskUser) := by
  unfold observedAction
  by_cases h1 : r.action = .AskUser
  · simp [h1]
  · by_cases h2 : r.action = .InjectContext ∧ r.context_injection.isSome <;>
      simp [h1, h2]

theorem observedAction_inj (r : HookResult) :
    (observedAction (some r) = HookAction.InjectContext) ↔
      (r.action = .InjectContext ∧ r.context_injection.isSome = true) := by
  unfold observedAction
  by_cases h1 : r.action = .AskUser
  · simp [h1]
  · by_cases h2 : r.action = .InjectContext ∧ r.context_injection.isSome
    · simp [h1, h2, h2.1, h2.2]
    · simp [h1, h2]

theorem emitLoop_inl_deny (hs : List Handler) (st : EmitState)
    (r : HookResult) (log : List (JValue × Option HookResult))
    (h : emitLoop hs st = (.inl r, log)) :
    r.action = .Deny ∧ ∃ p, (p, some r) ∈ log := by
  induction hs generalizing st log with
  | nil =>
      simp only [emitLoop] at h
      injection h with h1 h2
      exact absurd h1 (by simp)
  | cons hd rest ih =>
      revert h
      simp only [emitLoop]
      cases hr : hd st.current with
      | none =>
          intro h
          injection h with h1 h2
          have hre : emitLoop rest st = (.inl r, (emitLoop rest st).2) := by
            rw [← h1]
          obtain ⟨hd1, p, hp⟩ := ih st _ hre
          exact ⟨hd1, p, by rw [← h2]; exact List.mem_cons_of_mem _ hp⟩
      | some result =>
          by_cases hden : result.action = .Deny
          · simp only [hden, if_pos rfl]
            intro h
            injection h with h1 h2
            injection h1 with h1
            subst h1
            exact ⟨hden, st.current, by rw [← h2]; exact List.mem_singleton_self _⟩
          · simp only [if_neg hden]
            intro h
            injection h with h1 h2
            have hre : emitLoop rest (emitStep st result)
                = (.inl r, (emitLoop rest (emitStep st result)).2) := by
              rw [← h1]
            obtain ⟨hd1, p, hp⟩ := ih (emitStep st result) _ hre
            exact ⟨hd1, p, by rw [← h2]; exact List.mem_cons_of_mem _ hp⟩

theorem emitLoop_inr_char (hs : List Handler) (st st' : EmitState)
    (log : List (JValue × Option HookResult))
    (h : emitLoop hs st = (.inr st', log))
    (hsp : ∀ r, st.special = some r → r.action = .AskUser)
    (hin : ∀ r ∈ st.injects, r.action = .InjectContext) :
    st'.special.isSome = (st.special.isSome || hasAsk (log.map (·.2))) ∧
    st'.injects.isEmpty = (st.injects.isEmpty && !hasInj (log.map (·.2))) ∧
    (∀ r, st'.special = some r → r.action = .AskUser) ∧
    (∀ r ∈ st'.injects, r.action = .InjectContext) := by
  induction hs generalizing st log with
  | nil =>
      simp only [emitLoop] at h
      injection h with h1 h2
      injection h1 with h1
      subst h1
      refine ⟨?_, ?_, hsp, hin⟩ <;> simp [← h2, hasAsk, hasInj]
  | cons hd rest ih =>
      revert h
      simp only [emitLoop]
      cases hr : hd st.current with
      | none =>
          intro h
          injection h with h1 h2
          have hre : emitLoop rest st = (.inr st', (emitLoop rest st).2) := by
            rw [← h1]
          obtain ⟨c1, c2, c3, c4⟩ := ih st _ hre hsp hin
          refine ⟨?_, ?_, c3, c4⟩
          · rw [← h2, c1]
            simp [hasAsk, observedAction]
          · rw [← h2, c2]
            simp [hasInj, observedAction]
      | some result =>
          by_cases hden : result.action = .Deny
          · simp only [hden, if_pos rfl]
            intro h
            injection h with h1 h2
            exact absurd h1 (by simp)
          · simp only [if_neg hden]
            intro h
            injection h with h1 h2
            have hre : emitLoop rest (emitStep st result)
                = (.inr st', (emitLoop rest (emitStep st result)).2) := by
              rw [← h1]
            obtain ⟨c1, c2, c3, c4⟩ := ih (emitStep st result) _ hre
                (emitStep_special_inv st result hsp)
                (emitStep_injects_inv st result hin)
            refine ⟨?_, ?_, c3, c4⟩
            · rw [← h2, c1, emitStep_special_isSome]
              simp only [List.map_cons, hasAsk, List.any_cons]
              simp [observedAction_ask, Bool.or_assoc]
            · rw [← h2, c2, emitStep_injects_isEmpty]
              simp only [List.map_cons, hasInj, List.any_cons]
              simp [observedAction_inj, Bool.and_assoc, Bool.not_or]

theorem merge_inject_action (l : List HookResult) (hne : l ≠ [])
    (hin : ∀ r ∈ l, r.action = .InjectContext) :
    (merge_inject_context_results l).action = .InjectContext := by
  match l with
  | [] => exact absurd rfl hne
  | [r] => simpa [merge_inject_context_results] using hin r (by simp)
  | r1 :: r2 :: rest => rfl

theorem emitFinish_action (st : EmitState)
    (hsp : ∀ r, st.special = some r → r.action = .AskUser)
    (hin : ∀ r ∈ st.injects, r.action = .InjectContext) :
    (emitFinish st).action
      = if st.special.isSome then .AskUser
        else if st.injects.isEmpty then .Continue else .InjectContext := by
  unfold emitFinish
  cases hspc : st.special with
  | some r =>
      by_cases hie : st.injects.isEmpty <;>
        simp [hie, hsp r hspc]
  | none =>
      by_cases hie : st.injects.isEmpty
      · simp [hie]
      · have hne : st.injects ≠ [] := by
          intro hni
          rw [hni] at hie
          exact hie rfl
        simp [hie, merge_inject_action st.injects hne hin]

theorem maxObserved_eq (outs : List (Option HookResult)) :
    maxObserved outs
      = if hasAsk outs then .AskUser
        else if hasInj outs then .InjectContext else .Continue := by
  induction outs with
  | nil => rfl
  | cons o rest ih =>
      have hcons : maxObserved (o :: rest)
          = actionMax (observedAction o) (maxObserved rest) := rfl
      have ho : observedAction o = .Continue ∨ observedAction o = .InjectContext ∨
          observedAction o = .AskUser := by
        cases o with
        | none => exact Or.inl rfl
        | some r =>
            unfold observedAction
            by_cases h1 : r.action = .AskUser
            · simp [h1]
            · by_cases h2 : r.action = .InjectContext ∧ r.context_injection.isSome <;>
                simp [h1, h2]
      have haskc : hasAsk (o :: rest)
          = (decide (observedAction o = .AskUser) || hasAsk rest) := rfl
      have hinjc : hasInj (o :: rest)
          = (decide (observedAction o = .InjectContext) || hasInj rest) := rfl
      rw [hcons, ih, haskc, hinjc]
      rcases ho with ho | ho | ho <;>
        rw [ho] <;>
        cases ha : hasAsk rest <;>
        cases hi : hasInj rest <;>
        simp [ha, hi, actionMax, actionRank]

theorem emit_result_inr (reg : HookRegistry) (event : String) (data : JValue)
    (now : UtcTime) (entries : List HandlerEntry) (st' : EmitState)
    (hlook : lookupEvent reg.handlers event = some entries)
    (hne : entries.isEmpty = false)
    (hres : (emitLoop (entries.map (·.handler))
        { current := initialData reg data now, special := none,
          injects := [] }).1 = .inr st') :
    (emit reg event data now).1 = emitFinish st' := by
  unfold emit
  rw [hlook]
  simp only [hne, Bool.false_eq_true, if_false, hres]

/-- C1 (amended): for every emission in which no invoked handler returns a
deny result, the action of the returned `HookResult` is exactly the
maximum of the *observed* actions of the invoked handlers under
`continue < inject_context < ask_user`, where a `modify` result, an
`inject_context` result without a `context_injection`, and an erroring
handler each observe as `continue`; in particular, when some handler
returned `modify` and none returned `inject_context` or `ask_user`, the
returned action is `continue` (with the modified data), not `modify`. -/
theorem emit_action_is_max_observed (reg : HookRegistry) (event : String)
    (data : JValue) (now : UtcTime)
    (hnd : ∀ o ∈ (emit reg event data now).2.map (·.2),
      deniesOutcome o = false) :
    (emit reg event data now).1.action
      = maxObserved ((emit reg event data now).2.map (·.2)) := by
  cases hlook : lookupEvent reg.handlers event with
  | none =>
      unfold emit
      rw [hlook]
      rfl
  | some entries =>
      by_cases hne : entries.isEmpty = true
      · unfold emit
        rw [hlook]
        simp only [hne, if_true]
        rfl
      · have hne' : entries.isEmpty = false := by
          cases hb : entries.isEmpty
          · rfl
          · exact absurd hb hne
        have hlog : (emit reg event data now).2
            = (emitLoop (entries.map (·.handler))
                { current := initialData reg data now, special := none,
                  injects := [] }).2 :=
          emit_log reg event data now entries hlook hne'
        cases hres : (emitLoop (entries.map (·.handler))
            { current := initialData reg data now, special := none,
              injects := [] }).1 with
        | inl r =>
            have hpair : emitLoop (entries.map (·.handler))
                { current := initialData reg data now, special := none,
                  injects := [] }
                = (.inl r, (emitLoop (entries.map (·.handler))
                    { current := initialData reg data now, special := none,
                      injects := [] }).2) := by
              rw [← hres]
            obtain ⟨hd1, p, hp⟩ := emitLoop_inl_deny _ _ _ _ hpair
            have hcontra : deniesOutcome (some r) = false := by
              apply hnd
              rw [hlog]
              exact List.mem_map_of_mem (·.2) hp
            simp [deniesOutcome, hd1] at hcontra
        | inr st' =>
            have hpair : emitLoop (entries.map (·.handler))
                { current := initialData reg data now, special := none,
                  injects := [] }
                = (.inr st', (emitLoop (entries.map (·.handler))
                    { current := initialData reg data now, special := none,
                      injects := [] }).2) := by
              rw [← hres]
            obtain ⟨c1, c2, _, _⟩ := emitLoop_inr_char _ _ _ _ hpair
              (fun r h => Option.noConfusion h)
              (fun r h => absurd h (List.not_mem_nil r))
            have hact : (emit reg event data now).1 = emitFinish st' :=
              emit_result_inr reg event data now entries st' hlook hne' hres
            rw [hact, hlog,
              emitFinish_action st'
                (emitLoop_inr_char _ _ _ _ hpair
                  (fun r h => Option.noConfusion h)
                  (fun r h => absurd h (List.not_mem_nil r))).2.2.1
                (emitLoop_inr_char _ _ _ _ hpair
                  (fun r h => Option.noConfusion h)
                  (fun r h => absurd h (List.not_mem_nil r))).2.2.2,
              maxObserved_eq, c1, c2]
            cases hB : hasInj
                (List.map (fun x => x.2)
                  (emitLoop (List.map (fun x => x.handler) entries)
                    { current := initialData reg data now, special := none,
                      injects := [] }).2) <;>
              simp [hB]

/-- C1 (counterexample): a lone modify handler (no deny, no
inject_context, no ask_user) makes the claimed maximum `modify`, but
`emit` returns action `continue` — modify affects the data, never the
returned action. -/
theorem emit_modify_returns_continue :
    (emit regModify "e" (.obj []) t0).1.action = HookAction.Continue ∧
    ((emit regModify "e" (.obj []) t0).2.map (·.2)) = [some modifyR] ∧
    modifyR.action = HookAction.Modify ∧
    HookAction.Continue ≠ HookAction.Modify :=
  ⟨rfl, rfl, rfl, by decide⟩

/-- Witness for `emit_action_is_max_observed`. -/
theorem emit_action_is_max_observed_witness :
    (emit regModify "e" (.obj []) t0).1.action
      = maxObserved ((emit regModify "e" (.obj []) t0).2.map (·.2)) :=
  emit_action_is_max_observed regModify "e" (.obj []) t0 (by
    intro o ho
    rw [show ((emit regModify "e" (.obj []) t0).2.map (·.2))
        = [some modifyR] from rfl] at ho
    rw [List.mem_singleton.1 ho]
    rfl)
